import Mathlib

/-!
Verification of the opponent-pool subsystem of `rocket-learn`.

The definitions below are a shallow embedding of `src/rocket_learn/worker.py`
and `src/rocket_learn/game_manager/default_manager.py`.  Python floats are
modelled as rationals (exact arithmetic) except for the softmax, which uses
real exponentials; Redis keys and serialized blobs are opaque naturals;
fallible Python code returns `Except`.
-/

/-- Global names looked up by the functions of `worker.py`.  The module defines
`QUALITIES`, `MODEL_LATEST`, `MODEL_N`, `ROLLOUTS` and `VERSION_LATEST` at top
level, but no name `Keys` is defined or imported anywhere in the file (a
comment in the source even notes that moving the keys into a dedicated file is
still a to-do). -/
inductive PyName where
  | Keys
  | QUALITIES
  | MODEL_LATEST
  | MODEL_N
  | ROLLOUTS
  | VERSION_LATEST
deriving DecidableEq

/-- Errors raised by the embedded Python code. -/
inductive PyError where
  | nameError (n : PyName)
  | valueError
deriving DecidableEq

/-- Whether a global name is bound in the `worker.py` module scope. -/
def definedInWorkerModule : PyName → Bool
  | PyName.Keys => false
  | _ => true

/-- Python name resolution for a global: an undefined name raises `NameError`.
Evaluating the attribute access `Keys.MODEL_LATEST` first resolves the bare
name `Keys`, which is what fails in the source. -/
def lookupGlobal (n : PyName) : Except PyError Unit :=
  if definedInWorkerModule n then Except.ok () else Except.error (PyError.nameError n)

/-- The "latest model" slot of the Redis store: the `MODEL_LATEST` blob and
the `VERSION_LATEST` pointer, each possibly absent (deleted / never set). -/
structure LatestStore where
  modelLatest : Option ℕ
  versionLatest : Option ℕ
deriving DecidableEq

/-- Embedding of `update_model` (worker.py lines 25-30).  The body is

    redis.delete(Keys.MODEL_LATEST)
    redis.delete(Keys.VERSION_LATEST)
    redis.set(Keys.MODEL_LATEST, *state_dict_dump)
    redis.set(Keys.VERSION_LATEST, version)

Each statement begins by resolving the global `Keys`; the first resolution
raises `NameError`, so the four store operations in the `ok` branch are what
the code would execute had `Keys` resolved.  The result pairs the sequence of
store states a concurrent reader could observe during the call with the
call's outcome. -/
def update_model (st : LatestStore) (state_dict_dump : ℕ) (version : ℕ) :
    List LatestStore × Except PyError LatestStore :=
  match lookupGlobal PyName.Keys with
  | Except.error e => ([st], Except.error e)
  | Except.ok _ =>
      let st1 : LatestStore := { st with modelLatest := none }
      let st2 : LatestStore := { st1 with versionLatest := none }
      let st3 : LatestStore := { st2 with modelLatest := some state_dict_dump }
      let st4 : LatestStore := { st3 with versionLatest := some version }
      ([st, st1, st2, st3, st4], Except.ok st4)

/-- The opponent-pool part of the Redis store: the `OP_MODELS` list of
historical snapshot blobs and the `QUALITIES` list of scores. -/
structure PoolStore where
  opModels : List ℕ
  qualities : List ℚ
deriving DecidableEq

/-- Python `max` over a list of floats; `max` of an empty sequence raises in
Python, but every call site in `worker.py` guards with a non-emptiness test,
so the `[]` branch here is unreachable at those call sites. -/
def pyMax : List ℚ → ℚ
  | [] => 0
  | h :: t => t.foldl max h

/-- Embedding of `add_opponent` (worker.py lines 33-42).  The body is

    redis.rpush(Keys.OP_MODELS, state_dict_dump)
    qualities = [float(v) for v in redis.lrange(QUALITIES, 0, -1)]
    if qualities: quality = max(qualities) else: quality = 0
    redis.rpush(QUALITIES, quality)

The first statement resolves the global `Keys`, which raises `NameError`; the
`ok` branch embeds what the code would do had `Keys` resolved.  As with
`update_model`, the call returns the observable store states plus the
outcome. -/
def add_opponent (st : PoolStore) (state_dict_dump : ℕ) :
    List PoolStore × Except PyError PoolStore :=
  match lookupGlobal PyName.Keys with
  | Except.error e => ([st], Except.error e)
  | Except.ok _ =>
      let st1 : PoolStore := { st with opModels := st.opModels ++ [state_dict_dump] }
      let qualities := st1.qualities
      let quality : ℚ := if qualities.isEmpty then 0 else pyMax qualities
      let st2 : PoolStore := { st1 with qualities := st1.qualities ++ [quality] }
      ([st, st1, st2], Except.ok st2)

/-- Embedding of the Lua script of `update_opponent_quality` (worker.py lines
65-70):

    local q = tonumber(redis.call('LINDEX', KEYS[1], KEYS[2]))
    local new_q = q + tonumber(ARGV[1])
    return redis.call('LSET', KEYS[1], KEYS[2], new_q)

Redis runs an `EVAL` script as one atomic server-side operation, so the whole
read-modify-write is a single step.  For an out-of-range index `LINDEX`
returns nil and the script errors without writing, modelled as `none`. -/
def applyQualityDelta (q : List ℚ) (i : ℕ) (d : ℚ) : Option (List ℚ) :=
  if i < q.length then some (q.set i (q.getD i 0 + d)) else none

/-- Sequential execution of one atomic `applyQualityDelta` step per caller, in
a given order.  Because each script is atomic on the server, an arbitrary
interleaving of N concurrent callers is exactly some sequential order of
their N scripts. -/
def runConcurrentDeltas (i : ℕ) : List ℚ → List (ℚ) → Option (List ℚ)
  | q, [] => some q
  | q, d :: ds =>
      match applyQualityDelta q i d with
      | none => none
      | some q' => runConcurrentDeltas i q' ds

/-- Embedding of `update_opponent_quality` (worker.py lines 60-70): read the
pool size with `LLEN`, compute `delta = rate / (n * prob)`, then run the
atomic Lua script. -/
def update_opponent_quality (q : List ℚ) (index : ℕ) (prob rate : ℚ) : Option (List ℚ) :=
  let n : ℕ := q.length
  let delta : ℚ := rate / ((n : ℚ) * prob)
  applyQualityDelta q index delta

lemma getD_set_self (l : List ℚ) (i : ℕ) (v : ℚ) (h : i < l.length) :
    (l.set i v).getD i 0 = v := by
  induction l generalizing i with
  | nil => simp at h
  | cons a t ih =>
      cases i with
      | zero => simp
      | succ n =>
          simp only [List.set_cons_succ, List.getD_cons_succ]
          exact ih n (by simpa using h)

lemma set_getD_self (l : List ℚ) (i : ℕ) (h : i < l.length) :
    l.set i (l.getD i 0) = l := by
  induction l generalizing i with
  | nil => simp at h
  | cons a t ih =>
      cases i with
      | zero => simp
      | succ n =>
          simp only [List.getD_cons_succ, List.set_cons_succ, List.cons.injEq, true_and]
          exact ih n (by simpa using h)

lemma runConcurrentDeltas_eq (i : ℕ) (ds : List ℚ) :
    ∀ q : List ℚ, i < q.length →
      runConcurrentDeltas i q ds = some (q.set i (q.getD i 0 + ds.sum)) := by
  induction ds with
  | nil =>
      intro q h
      simp only [runConcurrentDeltas, List.sum_nil, add_zero, set_getD_self q i h]
  | cons d t ih =>
      intro q h
      have hlen : i < (q.set i (q.getD i 0 + d)).length := by simpa using h
      have hrec := ih (q.set i (q.getD i 0 + d)) hlen
      simp only [runConcurrentDeltas, applyQualityDelta, if_pos h]
      rw [hrec, getD_set_self q i _ h, List.set_set, List.sum_cons, add_assoc]

/-- Claim C1: for every in-range index and every finite set of concurrent
callers applying deltas to that index through the atomic Lua script of
`update_opponent_quality`, every interleaving (any execution order of the
atomic scripts) ends with the stored score equal to the original plus the sum
of all deltas — no update is lost. -/
theorem apply_quality_delta_no_lost_updates (q : List ℚ) (i : ℕ) (ds order : List ℚ)
    (hi : i < q.length) (hperm : ds.Perm order) :
    runConcurrentDeltas i q order = some (q.set i (q.getD i 0 + ds.sum)) := by
  rw [runConcurrentDeltas_eq i order q hi, hperm.sum_eq]

/-- Witness for C1: two callers with deltas 3 and 4 on index 0 of [1, 2],
executed in the order 4 then 3, end at [8, 2] = [1 + (3 + 4), 2]. -/
theorem apply_quality_delta_no_lost_updates_witness :
    (0 < ([1, 2] : List ℚ).length ∧ ([3, 4] : List ℚ).Perm [4, 3]) ∧
      runConcurrentDeltas 0 [1, 2] [4, 3] = some [8, 2] := by
  refine ⟨⟨by decide, by decide⟩, ?_⟩
  have h := apply_quality_delta_no_lost_updates [1, 2] 0 [3, 4] [4, 3]
    (by decide) (by decide)
  rw [h]
  norm_num [List.set_cons_zero, List.getD_cons_zero, List.sum_cons, List.sum_nil]

/-- Claim C3: every call to `update_model` and every call to `add_opponent`
raises `NameError` (the undefined global `Keys`) before performing any store
write: the observable state sequence is just the unchanged initial state and
neither operation ever completes. -/
theorem update_model_add_opponent_name_error (stL : LatestStore) (stP : PoolStore)
    (dump version : ℕ) :
    update_model stL dump version = ([stL], Except.error (PyError.nameError PyName.Keys)) ∧
      add_opponent stP dump = ([stP], Except.error (PyError.nameError PyName.Keys)) :=
  ⟨rfl, rfl⟩

/-- Counterexample for C2: starting from a consistent store (blob 1 at
version 10), `publish_latest`/`update_model` with blob 2 and version 20 does
not install the new pair — the claim that the blob and version pointer are
replaced as a single visible unit fails because no replacement happens at
all. -/
theorem publish_latest_not_single_unit_cex :
    (update_model ⟨some 1, some 10⟩ 2 20).2 ≠
      Except.ok (⟨some 2, some 20⟩ : LatestStore) := by
  intro hcontr
  simp [update_model, lookupGlobal, definedInWorkerModule] at hcontr

/-- Amended C2: `update_model` never replaces the blob/version pair: every
call fails with `NameError` (undefined `Keys`) before its first store
operation, so a concurrent reader can only ever observe the unchanged
pre-call state. -/
theorem publish_latest_never_replaces (st : LatestStore) (dump version : ℕ) :
    update_model st dump version = ([st], Except.error (PyError.nameError PyName.Keys)) :=
  rfl

/-- Claim C5 (code bug): promoting a first snapshot into an empty pool does
not yield quality list [0.0] — `add_opponent` raises `NameError` on the
undefined global `Keys` and appends nothing, leaving both lists empty. -/
theorem add_opponent_raises_before_append :
    add_opponent ⟨[], []⟩ 5 = ([⟨[], []⟩], Except.error (PyError.nameError PyName.Keys)) :=
  rfl

/-- The adjusted per-seat probability computed by the worker (worker.py line
96): `adjusted_prob = (current_version_prob * n_agents - 1) / (n_agents - 1)`. -/
def adjustedProb (p : ℚ) (n : ℕ) : ℚ := (p * (n : ℚ) - 1) / ((n : ℚ) - 1)

/-- Claim C6: for every seat count n ≥ 2 and target fraction p in (0,1), the
worker's adjusted probability satisfies 1/n + ((n-1)/n) * p' = p, so after
reserving one seat for the latest policy the overall expected fraction of
latest-policy seats is p. -/
theorem adjusted_prob_identity (n : ℕ) (p : ℚ) (hn : 2 ≤ n) (hp0 : 0 < p) (hp1 : p < 1) :
    1 / (n : ℚ) + ((n : ℚ) - 1) / (n : ℚ) * adjustedProb p n = p := by
  have h2 : (2 : ℚ) ≤ (n : ℚ) := by exact_mod_cast hn
  have hn0 : (n : ℚ) ≠ 0 := by linarith
  have hn1 : (n : ℚ) - 1 ≠ 0 := by intro hz; rw [sub_eq_zero] at hz; linarith [hz.symm]
  unfold adjustedProb
  field_simp
  ring

/-- Witness for C6: the spec's own scenario, n = 3 seats and p = 0.8, where
the adjusted probability is 0.7 and 1/3 + (2/3) * 0.7 = 0.8. -/
theorem adjusted_prob_identity_witness :
    (2 ≤ 3 ∧ 0 < (4 : ℚ) / 5 ∧ (4 : ℚ) / 5 < 1) ∧
      1 / (3 : ℚ) + ((3 : ℚ) - 1) / (3 : ℚ) * adjustedProb (4 / 5) 3 = 4 / 5 := by
  refine ⟨⟨by norm_num, by norm_num, by norm_num⟩, ?_⟩
  exact_mod_cast adjusted_prob_identity 3 (4 / 5) (by norm_num) (by norm_num) (by norm_num)

/-- Claim C8: `update_opponent_quality` reads the pool size n as the current
length of the quality list and applies exactly the delta
rate / (n * prob) to the score at the chosen index, leaving every other
entry and the list length unchanged. -/
theorem update_opponent_quality_delta_formula (q : List ℚ) (index : ℕ) (prob rate : ℚ)
    (hn : 0 < q.length) (hp : 0 < prob) (hi : index < q.length) :
    ∃ q', update_opponent_quality q index prob rate = some q' ∧
      q'.getD index 0 = q.getD index 0 + rate / ((q.length : ℚ) * prob) ∧
      q'.length = q.length := by
  refine ⟨q.set index (q.getD index 0 + rate / ((q.length : ℚ) * prob)), ?_, ?_, ?_⟩
  · simp only [update_opponent_quality, applyQualityDelta, if_pos hi]
  · exact getD_set_self q index _ hi
  · exact List.length_set q index _

/-- Witness for C8: pool [2, 3], index 1, chosen probability 1/2, outcome
rate 1: the delta is 1 / (2 * (1/2)) = 1 and the new score at index 1 is 4. -/
theorem update_opponent_quality_delta_formula_witness :
    (0 < ([2, 3] : List ℚ).length ∧ 0 < (1 : ℚ) / 2 ∧ 1 < ([2, 3] : List ℚ).length) ∧
      ∃ q', update_opponent_quality [2, 3] 1 (1 / 2) 1 = some q' ∧
        q'.getD 1 0 = ([2, 3] : List ℚ).getD 1 0 + 1 / ((([2, 3] : List ℚ).length : ℚ) * (1 / 2)) ∧
        q'.length = ([2, 3] : List ℚ).length := by
  refine ⟨⟨by decide, by norm_num, by decide⟩, ?_⟩
  exact update_opponent_quality_delta_formula [2, 3] 1 (1 / 2) 1 (by decide) (by norm_num) (by decide)

/-- `np.max` over a list of reals (worker.py line 47).  NumPy raises
`ValueError` on an empty array; that failure is surfaced by the caller
`get_opponent_index` below, so the `[]` branch here is a junk value that no
reachable call observes. -/
def npMax : List ℝ → ℝ
  | [] => 0
  | h :: t => t.foldl max h

/-- The intermediate array `e_x = np.exp(x - np.max(x))` of `_softmax`
(worker.py line 47). -/
noncomputable def expShifted (x : List ℝ) : List ℝ :=
  x.map fun v => Real.exp (v - npMax x)

/-- Embedding of `_softmax` (worker.py lines 45-48): `e_x / e_x.sum()`
elementwise. -/
noncomputable def _softmax (x : List ℝ) : List ℝ :=
  (expShifted x).map fun v => v / (expShifted x).sum

lemma expShifted_sum_pos (x : List ℝ) (hx : x ≠ []) : 0 < (expShifted x).sum := by
  cases x with
  | nil => exact absurd rfl hx
  | cons a t =>
      simp only [expShifted, List.map_cons, List.sum_cons]
      have h1 : 0 < Real.exp (a - npMax (a :: t)) := Real.exp_pos _
      have h2 : 0 ≤ (t.map fun v => Real.exp (v - npMax (a :: t))).sum := by
        apply List.sum_nonneg
        intro y hy
        obtain ⟨v, -, rfl⟩ := List.mem_map.mp hy
        exact (Real.exp_pos _).le
      linarith

lemma sum_map_div (l : List ℝ) (s : ℝ) : (l.map fun v => v / s).sum = l.sum / s := by
  induction l with
  | nil => simp
  | cons a t ih => simp [ih, add_div]

lemma foldl_max_add (t : List ℝ) (a c : ℝ) :
    (t.map fun v => v + c).foldl max (a + c) = t.foldl max a + c := by
  induction t generalizing a with
  | nil => simp
  | cons h tl ih =>
      simp only [List.map_cons, List.foldl_cons]
      rw [max_add_add_right]
      exact ih (max a h)

lemma npMax_shift (x : List ℝ) (c : ℝ) (hx : x ≠ []) :
    npMax (x.map fun v => v + c) = npMax x + c := by
  cases x with
  | nil => exact absurd rfl hx
  | cons a t =>
      simp only [List.map_cons, npMax]
      exact foldl_max_add t a c

lemma expShifted_shift (x : List ℝ) (c : ℝ) (hx : x ≠ []) :
    expShifted (x.map fun v => v + c) = expShifted x := by
  unfold expShifted
  rw [npMax_shift x c hx, List.map_map]
  apply congrArg (fun f => List.map f x)
  funext v
  apply congrArg Real.exp
  ring

/-- Claim C7: for every non-empty quality vector, the softmax of
`get_opponent_index` sums to exactly 1, and it is invariant under adding a
constant to every element (shift-invariance). -/
theorem softmax_sum_one_shift_invariant (x : List ℝ) (hx : x ≠ []) :
    (_softmax x).sum = 1 ∧ ∀ c : ℝ, _softmax (x.map fun v => v + c) = _softmax x := by
  constructor
  · have hs := expShifted_sum_pos x hx
    unfold _softmax
    rw [sum_map_div]
    exact div_self (ne_of_gt hs)
  · intro c
    have hne : x.map (fun v => v + c) ≠ [] := by
      cases x with
      | nil => exact absurd rfl hx
      | cons a t => simp
    unfold _softmax
    rw [expShifted_shift x c hx]

/-- Witness for C7: the singleton quality vector [0], whose softmax is [1]. -/
theorem softmax_sum_one_shift_invariant_witness :
    ([(0 : ℝ)] ≠ ([] : List ℝ)) ∧
      ((_softmax [(0 : ℝ)]).sum = 1 ∧
        ∀ c : ℝ, _softmax ([(0 : ℝ)].map fun v => v + c) = _softmax [(0 : ℝ)]) :=
  ⟨by simp, softmax_sum_one_shift_invariant [(0 : ℝ)] (by simp)⟩

/-- Embedding of `get_opponent_index` (worker.py lines 51-57).  The random
draw of `np.random.choice` is supplied as an oracle `pick`; on an empty
quality list `np.max` inside `_softmax` raises `ValueError` before any index
can be drawn, surfaced here at entry. -/
noncomputable def get_opponent_index (qualities : List ℝ) (pick : ℕ) :
    Except PyError (ℕ × ℝ) :=
  match qualities with
  | [] => Except.error PyError.valueError
  | _ :: _ =>
      let probs := _softmax qualities
      Except.ok (pick % probs.length, probs.getD (pick % probs.length) 0)

/-- A seat assignment produced by the worker loop: the latest policy or a
historical snapshot by index. -/
inductive SeatPick where
  | latest
  | historical (index : ℕ)
deriving DecidableEq

/-- The worker's per-seat selection loop (worker.py lines 97-108): for each of
the n_agents - 1 non-reserved seats, draw a uniform random number (the `.1`
of the oracle pair); below `adjusted_prob` the seat uses the latest policy,
otherwise `get_opponent_index` picks a historical snapshot (the `.2` of the
oracle pair feeds its random choice).  The recorded selection probability is
dropped here since no claim consumes it. -/
noncomputable def selectSeats (qualities : List ℝ) (adjusted : ℚ) :
    List (ℚ × ℕ) → Except PyError (List SeatPick)
  | [] => Except.ok []
  | (draw, pick) :: rest =>
      if draw < adjusted then
        match selectSeats qualities adjusted rest with
        | Except.error e => Except.error e
        | Except.ok seats => Except.ok (SeatPick.latest :: seats)
      else
        match get_opponent_index qualities pick with
        | Except.error e => Except.error e
        | Except.ok (index, _) =>
            match selectSeats qualities adjusted rest with
            | Except.error e => Except.error e
            | Except.ok seats => Except.ok (SeatPick.historical index :: seats)

/-- The worker's matchup construction (worker.py lines 92-108): one seat is
always the latest policy; when n_agents > 1 the remaining n_agents - 1 seats
are filled by `selectSeats` with the adjusted probability.  The final
`np.random.shuffle` only permutes seats and is omitted. -/
noncomputable def workerBuildAgents (qualities : List ℝ) (n_agents : ℕ)
    (current_version_prob : ℚ) (oracle : List (ℚ × ℕ)) :
    Except PyError (List SeatPick) :=
  if 1 < n_agents then
    match selectSeats qualities (adjustedProb current_version_prob n_agents)
        (oracle.take (n_agents - 1)) with
    | Except.error e => Except.error e
    | Except.ok seats => Except.ok (SeatPick.latest :: seats)
  else Except.ok [SeatPick.latest]

/-- Counterexample for C4: with an empty pool, 2 seats, p = 0.8 (adjusted
probability 0.6) and a draw of 0.9, the worker does not short-circuit to
all-latest: it calls `get_opponent_index` on the empty quality list, which
fails with `ValueError` from `np.max` of an empty array. -/
theorem empty_pool_not_short_circuited_cex :
    workerBuildAgents [] 2 (4 / 5) [(9 / 10, 0)] ≠
        Except.ok [SeatPick.latest, SeatPick.latest] ∧
      workerBuildAgents [] 2 (4 / 5) [(9 / 10, 0)] = Except.error PyError.valueError := by
  have h : workerBuildAgents [] 2 (4 / 5) [(9 / 10, 0)] = Except.error PyError.valueError := by
    unfold workerBuildAgents selectSeats get_opponent_index
    norm_num [adjustedProb]
  exact ⟨by rw [h]; intro hc; exact Except.noConfusion hc, h⟩

lemma selectSeats_empty_error_iff (adjusted : ℚ) (ds : List (ℚ × ℕ)) :
    selectSeats [] adjusted ds = Except.error PyError.valueError ↔
      ∃ x ∈ ds, adjusted ≤ x.1 := by
  induction ds with
  | nil => simp [selectSeats]
  | cons hd tl ih =>
      obtain ⟨d, pk⟩ := hd
      by_cases hlt : d < adjusted
      · have hstep :
            selectSeats [] adjusted ((d, pk) :: tl) = Except.error PyError.valueError ↔
              selectSeats [] adjusted tl = Except.error PyError.valueError := by
          simp only [selectSeats, if_pos hlt]
          cases hsel : selectSeats [] adjusted tl with
          | error e =>
              constructor
              · intro hh; exact hh
              · intro hh; exact hh
          | ok seats =>
              constructor
              · intro hh; exact absurd hh (by intro hc; exact Except.noConfusion hc)
              · intro hh; exact absurd hh (by intro hc; exact Except.noConfusion hc)
        rw [hstep, ih]
        constructor
        · rintro ⟨x, hmem, hx⟩; exact ⟨x, List.mem_cons_of_mem _ hmem, hx⟩
        · rintro ⟨x, hmem, hx⟩
          rcases List.mem_cons.mp hmem with hhd | htl
          · exfalso; rw [hhd] at hx; exact absurd hx (not_le.mpr hlt)
          · exact ⟨x, htl, hx⟩
      · have hle : adjusted ≤ d := not_lt.mp hlt
        have hstep : selectSeats [] adjusted ((d, pk) :: tl) =
            Except.error PyError.valueError := by
          simp only [selectSeats, if_neg hlt, get_opponent_index]
        rw [hstep]
        simp only [true_iff, eq_self_iff_true]
        exact ⟨(d, pk), List.mem_cons_self _ _, hle⟩

/-- Amended C4: the worker has no empty-pool guard.  With zero historical
snapshots it assigns the latest policy to every seat only when every random
draw happens to select "latest"; as soon as one draw selects a historical
opponent, `get_opponent_index` is called on the empty quality list and the
sampling fails with `ValueError` instead of short-circuiting. -/
theorem empty_pool_estimator_called_iff (n : ℕ) (p : ℚ) (oracle : List (ℚ × ℕ))
    (hn : 2 ≤ n) :
    workerBuildAgents [] n p oracle = Except.error PyError.valueError ↔
      ∃ x ∈ oracle.take (n - 1), adjustedProb p n ≤ x.1 := by
  unfold workerBuildAgents
  rw [if_pos (by omega : 1 < n)]
  rw [← selectSeats_empty_error_iff (adjustedProb p n) (oracle.take (n - 1))]
  cases hsel : selectSeats [] (adjustedProb p n) (oracle.take (n - 1)) with
  | error e =>
      constructor
      · intro hh
        have : e = PyError.valueError := by
          have := hh
          simp only [Except.error.injEq] at this
          exact this
        rw [this]
      · intro hh
        have : e = PyError.valueError := by
          have := hh
          simp only [Except.error.injEq] at this
          exact this
        rw [this]
  | ok seats =>
      constructor
      · intro hh; exact absurd hh (by intro hc; exact Except.noConfusion hc)
      · intro hh; exact absurd hh (by intro hc; exact Except.noConfusion hc)

/-- Witness for the amended C4: n = 2 seats, p = 0.8, one oracle draw 0.9
which is at least the adjusted probability 0.6, so sampling fails with
`ValueError`. -/
theorem empty_pool_estimator_called_iff_witness :
    2 ≤ 2 ∧
      (workerBuildAgents [] 2 (4 / 5) [((9 : ℚ) / 10, 0)] = Except.error PyError.valueError ↔
        ∃ x ∈ ([((9 : ℚ) / 10, 0)] : List (ℚ × ℕ)).take (2 - 1),
          adjustedProb (4 / 5) 2 ≤ x.1) :=
  ⟨by norm_num, empty_pool_estimator_called_iff 2 (4 / 5) [((9 : ℚ) / 10, 0)] (by norm_num)⟩

/-- Errors raised by the embedded episode loop of `DefaultManager._episode`. -/
inductive EpiErr where
  | keyError (step : ℕ)
  | fuelOut
deriving DecidableEq

/-- Modelled from the spec: the environment behind `DefaultManager._episode`
(`rocket_learn.envs.rlgym.RLGym`, repository code that is not under `src/`)
follows the multi-agent gym contract the spec relies on in its RunEpisode
description: each seat terminates at its own step (`T c` is the step at which
`terminated[c]` becomes true), a terminated seat leaves `env.agents`
immediately after that step, and the observation mapping returned by a step
covers exactly the seats that acted in that step (so a seat's last
observation is the one from its terminating step).  `activeCount cars T k`
is the number of seats still in `env.agents` after `k` steps. -/
def activeCount (cars : List ℕ) (T : ℕ → ℕ) (k : ℕ) : ℕ :=
  (cars.filter fun c => decide (k < T c)).length

/-- Embedding of the `while True` loop of `DefaultManager._episode`
(default_manager.py lines 46-79), driven by the spec-modelled environment
above.  State: `k` steps taken so far, `acc` = `total_agent_steps`, `states`
= the step indices recorded in `all_states`, `notified` = the cars whose
agents received `agent.end`.  One iteration: build actions for EVERY car of
`car_identifier` (the source never consults its `removed_cars` set, so a car
whose observation is gone — `T c < k` with `k ≥ 1` — raises `KeyError` in the
dict comprehension `observations[car]`); then step, multiply `acc` by
`len(env.agents)`, record the state, notify the seats that ended this step,
and stop when `env.agents` is empty.  `fuel` bounds the recursion. -/
def episodeAux (cars : List ℕ) (T : ℕ → ℕ) :
    ℕ → ℕ → ℕ → List ℕ → List ℕ → Except EpiErr (List ℕ × ℕ × List ℕ)
  | 0, _, _, _, _ => Except.error EpiErr.fuelOut
  | fuel + 1, k, acc, states, notified =>
      if (decide (0 < k) && cars.any fun c => decide (T c < k)) = true then
        Except.error (EpiErr.keyError k)
      else
        let k' := k + 1
        let acc' := acc * activeCount cars T k'
        let states' := states ++ [k']
        let notified' := notified ++ cars.filter fun c => decide (T c = k')
        if activeCount cars T k' = 0 then Except.ok (states', acc', notified')
        else episodeAux cars T fuel k' acc' states' notified'

/-- `DefaultManager._episode` itself: reset (recording the initial state and
starting `total_agent_steps` at 0), run the loop, and return
`(all_states, total_agent_steps)` — the third component logs the `agent.end`
notifications for inspection. -/
def DefaultManager_episode (cars : List ℕ) (T : ℕ → ℕ) (fuel : ℕ) :
    Except EpiErr (List ℕ × ℕ × List ℕ) :=
  episodeAux cars T fuel 0 0 [0] []

/-- Claim C9 (code bug): the spec's own scenario — two seats, seat 0
terminating at step 10 and seat 1 at step 15 — does not run to step 15.  Two
steps after the first termination the loop still builds actions for seat 0
(`removed_cars` is never used), its observation is no longer present, and the
episode aborts with `KeyError` at step 11, before seat 1 terminates or is
notified. -/
theorem episode_key_error_partial_termination :
    DefaultManager_episode [0, 1] (fun c => if c = 0 then 10 else 15) 20 =
      Except.error (EpiErr.keyError 11) := by
  rfl

lemma episodeAux_acc_zero (cars : List ℕ) (T : ℕ → ℕ) :
    ∀ (fuel k : ℕ) (states notified : List ℕ) (out : List ℕ × ℕ × List ℕ),
      episodeAux cars T fuel k 0 states notified = Except.ok out → out.2.1 = 0 := by
  intro fuel
  induction fuel with
  | zero =>
      intro k s nt out h
      simp [episodeAux] at h
  | succ f ih =>
      intro k s nt out h
      simp only [episodeAux] at h
      split at h
      · exact absurd h (by intro hc; exact Except.noConfusion hc)
      · rw [Nat.zero_mul] at h
        split at h
        · have hout : (s ++ [k + 1], 0, nt ++ cars.filter fun c => decide (T c = k + 1)) = out :=
            Except.ok.inj h
          rw [← hout]
        · exact ih (k + 1) (s ++ [k + 1]) (nt ++ cars.filter fun c => decide (T c = k + 1)) out h

/-- Claim C10: whenever `DefaultManager._episode` returns, the
`total_agent_steps` it reports is 0: the counter starts at 0 and is only ever
multiplied by `len(self.env.agents)`, never incremented. -/
theorem episode_agent_steps_zero (cars : List ℕ) (T : ℕ → ℕ) (fuel : ℕ)
    (out : List ℕ × ℕ × List ℕ)
    (h : DefaultManager_episode cars T fuel = Except.ok out) : out.2.1 = 0 := by
  unfold DefaultManager_episode at h
  exact episodeAux_acc_zero cars T fuel 0 [0] [] out h

/-- Witness for C10: a single seat terminating at step 1; the episode
completes with two recorded states and reports 0 agent steps. -/
theorem episode_agent_steps_zero_witness :
    DefaultManager_episode [0] (fun _ => 1) 3 = Except.ok ([0, 1], 0, [0]) ∧
      (([0, 1], 0, [0]) : List ℕ × ℕ × List ℕ).2.1 = 0 :=
  ⟨by rfl, episode_agent_steps_zero [0] (fun _ => 1) 3 ([0, 1], 0, [0]) (by rfl)⟩
